import Mathlib

/-!
Verification development for the `neuromorphopy` retrieval pipeline.

The Python sources are embedded shallowly:
  * text is a list of characters (`Str`);
  * the SWC parsing pipeline of `swc.py` (`get_neuron_swc`,
    `validate_swc_data`, the `to_csv` serialisation of
    `download_swc_data`) becomes pure functions over `Str`;
  * the HTTP status check of `utils.py` becomes a function into
    `Except PyErr`;
  * the concurrent search of `api.py` (`search_neurons`) is modelled with
    an explicit completion order for the gathered page tasks;
  * the semaphore admission control of `fetch_with_sem` / `download_one`
    becomes a step relation on task phases;
  * the bulk download (`download_neurons`) becomes a state transformer on
    a world of files, printed lines and issued network requests.
-/

namespace NeuromorphoPy

/-- Decidable equality for fallible results, so that concrete runs of the
embedded functions can be checked by `decide`. -/
instance {ε α : Type} [DecidableEq ε] [DecidableEq α] : DecidableEq (Except ε α)
  | .ok a, .ok b => if h : a = b then .isTrue (by rw [h]) else .isFalse (by simp [h])
  | .error a, .error b => if h : a = b then .isTrue (by rw [h]) else .isFalse (by simp [h])
  | .ok _, .error _ => .isFalse (by simp)
  | .error _, .ok _ => .isFalse (by simp)

/-- Text is modelled as a list of characters. -/
abbrev Str := List Char

/-- Split a character list at every character satisfying `p`, dropping the
separators; runs of separators yield empty pieces, as Python slicing does.
The result is always non-empty. -/
def splitWhen (p : Char → Bool) : Str → List Str
  | [] => [[]]
  | ch :: rest =>
    match splitWhen p rest with
    | [] => [[]]
    | h :: t => if p ch then [] :: h :: t else (ch :: h) :: t

/-- `.str.replace("\r\n", "")`: delete carriage-return/newline pairs. -/
def removeCRLF : Str → Str
  | '\r' :: '\n' :: rest => removeCRLF rest
  | c :: rest => c :: removeCRLF rest
  | [] => []

/-- `io.StringIO(text).readlines()` composed with later stripping of the
line terminators: split on newlines; a trailing newline produces no empty
final line. -/
def readLines (text : Str) : List Str :=
  let ls := splitWhen (fun c => c = '\n') text
  if ls.getLast? = some [] then ls.dropLast else ls

/-- `swc.py` line 46: `next(idx for idx, line in enumerate(lines) if "#"
not in line)` followed by the slice `lines[num_lines:]`.  Drops the leading
lines that contain `#` anywhere; `none` models the `StopIteration` raised
when every line contains `#`. -/
def dataRegion : List Str → Option (List Str)
  | [] => none
  | l :: rest => if l.contains '#' then dataRegion rest else some (l :: rest)

/-- Whitespace tokenisation of one line, `swc.py` line 49:
`.str.replace("\r\n", "").str.split(expand=True)`. -/
def tokensOf (l : Str) : List Str :=
  (splitWhen (fun c => c.isWhitespace) (removeCRLF l)).filter (fun w => !w.isEmpty)

/-- Nonempty all-digit token. -/
def isDigitTok (s : Str) : Bool := !s.isEmpty && s.all Char.isDigit

/-- Numeric value of a digit token. -/
def natOfDigits (s : Str) : ℕ := s.foldl (fun a c => 10 * a + (c.toNat - '0'.toNat)) 0

/-- Python `int(token)`: optional sign followed by digits. -/
def intOfTok (s : Str) : Option Int :=
  match s with
  | '-' :: rest => if isDigitTok rest then some (-(natOfDigits rest : Int)) else none
  | '+' :: rest => if isDigitTok rest then some ((natOfDigits rest : Int)) else none
  | _ => if isDigitTok s then some ((natOfDigits s : Int)) else none

/-- A parsed decimal number standing for a Python float: the value is
`mant / 10 ^ exp`.  Kept unreduced so that every definition below computes
by kernel reduction. -/
structure PyFloat where
  mant : Int
  exp : ℕ
deriving DecidableEq, Repr

/-- Python `float(token)` on the plain decimal tokens appearing in SWC
data (sign, digits, optional fractional part). -/
def floatOfTok (s : Str) : Option PyFloat :=
  let core : Str → Option PyFloat := fun t =>
    match splitWhen (fun c => c = '.') t with
    | [a] => if isDigitTok a then some ⟨(natOfDigits a : Int), 0⟩ else none
    | [a, b] =>
      if a.isEmpty && b.isEmpty then none
      else if (a.isEmpty || isDigitTok a) && (b.isEmpty || isDigitTok b) then
        some ⟨(natOfDigits a * 10 ^ b.length + natOfDigits b : Int), b.length⟩
      else none
    | _ => none
  match s with
  | '-' :: rest => (core rest).map (fun f => ⟨-f.mant, f.exp⟩)
  | '+' :: rest => core rest
  | _ => core s

/-- One row of parsed SWC data (`swc.py`, columns `n, type, x, y, z,
radius, parent`); the floating-point columns are carried as decimals. -/
structure SwcRow where
  n : Int
  type : Int
  x : PyFloat
  y : PyFloat
  z : PyFloat
  radius : PyFloat
  parent : Int
deriving DecidableEq, Repr

/-- Error text of `validate_swc_data`, `swc.py` line 27. -/
def errNoRoot : Str := "SWC data does not contain a root node.".toList

/-- Collapsed error text for the column-count / `astype` failures of
`swc.py` lines 49-65. -/
def errFields : Str := "could not convert row fields".toList

/-- Error text standing for the `StopIteration` of `swc.py` line 46. -/
def errNoData : Str := "StopIteration".toList

/-- Column coercion of one tokenised line (`swc.py` lines 49-65): the
rectangular-width check of `zip(..., strict=True)` and the per-column
`astype` failures are collapsed into a single error. -/
def rowOfTokens (t : List Str) : Except Str SwcRow :=
  match t with
  | [a, b, c, d, e, f, g] =>
    match intOfTok a, intOfTok b, floatOfTok c, floatOfTok d,
          floatOfTok e, floatOfTok f, intOfTok g with
    | some vn, some vt, some vx, some vy, some vz, some vr, some vp =>
      .ok ⟨vn, vt, vx, vy, vz, vr, vp⟩
    | _, _, _, _, _, _, _ => .error errFields
  | _ => .error errFields

/-- Coerce every data line, stopping at the first failure. -/
def rowsOfLines : List Str → Except Str (List SwcRow)
  | [] => .ok []
  | l :: rest => do
    let r ← rowOfTokens (tokensOf l)
    let rs ← rowsOfLines rest
    .ok (r :: rs)

/-- `swc_data.loc[0, "type"] = 1` (`swc.py` line 31): reassign the type of
the row at structural index 0. -/
def setHeadType1 : List SwcRow → List SwcRow
  | [] => []
  | r :: rest => { r with type := 1 } :: rest

/-- `validate_swc_data` (`swc.py` lines 24-31).  Raises when no row has
`parent == -1`; when additionally no row has `type == 1` it prints a
notice and sets the type of the row at index 0 to 1.  The boolean reports
whether the notice was printed. -/
def validate_swc_data (rows : List SwcRow) : Except Str (List SwcRow × Bool) :=
  if rows.all (fun r => r.parent != -1) then .error errNoRoot
  else if rows.all (fun r => r.type != 1) then .ok (setHeadType1 rows, true)
  else .ok (rows, false)

/-- The parsing pipeline of `get_neuron_swc` (`swc.py` lines 34-68)
applied to the response text: readlines, drop the `#` prefix, tokenise,
coerce, validate. -/
def get_neuron_swc (text : Str) : Except Str (List SwcRow) :=
  match dataRegion (readLines text) with
  | none => .error errNoData
  | some ls => do
    let rows ← rowsOfLines ls
    let rv ← validate_swc_data rows
    .ok rv.1

/-- Header line emitted by `to_csv(..., header=True)` for the renamed
columns of `swc.py` line 51. -/
def swcHeader : Str := "n type x y z radius parent".toList

/-- Integer column rendering. -/
def intTok (i : Int) : Str := (toString i).toList

/-- One data line of `to_csv(sep=" ", ...)`; `fp` renders the four float
columns (the exact digits printed never matter below). -/
def rowLine (fp : PyFloat → Str) (r : SwcRow) : Str :=
  intTok r.n ++ ' ' :: intTok r.type ++ ' ' :: fp r.x ++ ' ' :: fp r.y ++
    ' ' :: fp r.z ++ ' ' :: fp r.radius ++ ' ' :: intTok r.parent

/-- Newline-terminated concatenation of lines, as `to_csv` writes them. -/
def joinLines : List Str → Str
  | [] => []
  | l :: rest => l ++ '\n' :: joinLines rest

/-- `swc_data.to_csv(..., sep=" ", header=True, index=False)`
(`download_swc_data`, `swc.py` line 111): a header line naming the seven
columns, then one line per row, each newline-terminated. -/
def to_csv_text (fp : PyFloat → Str) (rows : List SwcRow) : Str :=
  joinLines (swcHeader :: rows.map (rowLine fp))

/-- Digits of a natural number. -/
def natDigits (m : ℕ) : Str := (toString m).toList

/-- A concrete fixed-point float renderer in the style of pandas, used
only to instantiate `fp` on concrete inputs. -/
def floatTok (f : PyFloat) : Str :=
  let sign : Str := if f.mant < 0 then ['-'] else []
  let m := f.mant.natAbs
  if f.exp = 0 then sign ++ natDigits m ++ ('.' :: ['0'])
  else
    sign ++ natDigits (m / 10 ^ f.exp) ++
      '.' :: (List.replicate (f.exp - (natDigits (m % 10 ^ f.exp)).length) '0' ++
        natDigits (m % 10 ^ f.exp))

/-! ### `utils.py`: HTTP response validity -/

/-- The two ways `_check_response_validity` can raise: the explicit
`ValueError(bad_status[...])`, or the `KeyError` from the dictionary
lookup itself. -/
inductive PyErr where
  | valueErr (msg : Str)
  | keyErr (key : ℕ)
deriving DecidableEq, Repr

/-- The `bad_status` table of `_check_response_validity`
(`utils.py` lines 36-41). -/
def bad_status : List (ℕ × Str) :=
  [(400, "400 error: Bad request, usually wrong parameters to select queries.".toList),
   (404, "404 error: Resource not found or does not exist.".toList),
   (405, "405 error: Unsupported HTTP method used.".toList),
   (500, "500 error: Internal Server Error. Please notify nmoadmin@gmu.edu.".toList)]

/-- `bad_status[code]`: a Python dict lookup. -/
def lookupStatus (code : ℕ) : Option Str :=
  (bad_status.find? (fun kv => kv.1 == code)).map (fun kv => kv.2)

/-- `_check_response_validity` (`utils.py` lines 34-47): status 200 passes,
a status in the table raises `ValueError`, and any other status makes the
lookup `bad_status[page.status_code]` itself raise `KeyError`. -/
def _check_response_validity (status : ℕ) : Except PyErr Unit :=
  if status = 200 then .ok ()
  else
    match lookupStatus status with
    | some m => .error (.valueErr m)
    | none => .error (.keyErr status)

/-- `request_url_get` (`utils.py` lines 67-81): perform the GET (respons
status and body given by the environment) and validate the response. -/
def request_url_get (status : ℕ) (body : Str) : Except PyErr Str := do
  _check_response_validity status
  .ok body

/-- `request_url_post` (`utils.py` lines 84-111): perform the POST and
validate the response the same way. -/
def request_url_post (status : ℕ) (body : Str) : Except PyErr Str := do
  _check_response_validity status
  .ok body

/-! ### `api.py`: concurrent paginated search -/

/-- `pages = (total + size - 1) // size` with the fixed `size = 100` of
`search_neurons` (`api.py` lines 70-71). -/
def numPages (total : ℕ) : ℕ := (total + 100 - 1) / 100

/-- One remote page: `_fetch_page` returns the records of page `page` when
the remote serves `items` in order, `size` records per page. -/
def fetch_page (items : List α) (size page : ℕ) : List α :=
  (items.drop (page * size)).take size

/-- Result slots of `asyncio.gather`: the page tasks finish in the order
given by `completion`, each writing its result into its own slot. -/
def storeResults (f : ℕ → List α) : List ℕ → (ℕ → Option (List α)) → ℕ → Option (List α)
  | [], acc => acc
  | i :: rest, acc => storeResults f rest (fun j => if j = i then some (f i) else acc j)

/-- Read the slots back in page order, as `await ... gather(*tasks)`
returns them. -/
def collectSlots : List (Option (List α)) → Option (List (List α))
  | [] => some []
  | none :: _ => none
  | some b :: rest => (collectSlots rest).map (fun bs => b :: bs)

/-- `search_neurons` (`api.py` lines 43-97) for a remote collection
`items` served 100 per page, with the page tasks completing in the order
`completion`: gather the pages into their slots and flatten
`[neuron for page_results in results for neuron in page_results]`.
`none` would mean a slot was never filled, which cannot happen for a real
completion order. -/
def search_neurons (items : List α) (completion : List ℕ) : Option (List α) :=
  let pages := numPages items.length
  (collectSlots ((List.range pages).map
    (storeResults (fetch_page items 100) completion (fun _ => none)))).map List.flatten

/-- Fail-fast gather: `asyncio.gather` re-raises the exception of a failed
task, so the gathered result is ok exactly when every page task is ok
(`_fetch_page`, `api.py` lines 35-41, raises on bad status via
`raise_for_status` and on a malformed body via the key lookups). -/
def gatherExcept : List (Except ε (List α)) → Except ε (List (List α))
  | [] => .ok []
  | t :: rest => do
    let r ← t
    let rs ← gatherExcept rest
    .ok (r :: rs)

/-- `search_neurons` with fallible page fetches: the flattened pages, or
the error of a failed page fetch (`api.py` lines 78-84). -/
def search_neurons_exc (total : ℕ) (fetch : ℕ → Except ε (List α)) : Except ε (List α) := do
  let results ← gatherExcept ((List.range (numPages total)).map fetch)
  .ok results.flatten

/-! ### `api.py`: semaphore admission control -/

/-- Phase of one fetch/download task with respect to the shared semaphore:
not yet admitted, holding a permit (`async with sem` body running), or
finished (the body returned, or raised) with the permit released. -/
inductive TaskPhase where
  | waiting
  | running
  | doneOk
  | doneFail
deriving DecidableEq, Repr

/-- Number of tasks currently holding a permit. -/
def inFlight (s : List TaskPhase) : ℕ := s.countP (fun t => t == TaskPhase.running)

/-- One scheduler step of `fetch_with_sem` (`api.py` lines 74-76) or
`download_one` (`api.py` lines 128-147): a task may enter its `async with`
body only while fewer than `k` permits are taken, and leaving the body —
normally or by exception — releases the permit. -/
inductive SemStep (k : ℕ) : List TaskPhase → List TaskPhase → Prop
  | acquire (s : List TaskPhase) (i : ℕ) (hget : s[i]? = some TaskPhase.waiting)
      (hcap : inFlight s < k) : SemStep k s (s.set i TaskPhase.running)
  | finishOk (s : List TaskPhase) (i : ℕ) (hget : s[i]? = some TaskPhase.running) :
      SemStep k s (s.set i TaskPhase.doneOk)
  | finishFail (s : List TaskPhase) (i : ℕ) (hget : s[i]? = some TaskPhase.running) :
      SemStep k s (s.set i TaskPhase.doneFail)

/-- States reachable by interleaving task steps. -/
inductive SemReaches (k : ℕ) : List TaskPhase → List TaskPhase → Prop
  | refl (s : List TaskPhase) : SemReaches k s s
  | step {s t u : List TaskPhase} : SemReaches k s t → SemStep k t u → SemReaches k s u

/-! ### `api.py`: bulk download -/

/-- Observable state of a `download_neurons` run: the files on disk, the
lines printed by the per-item `except` clause, and the number of network
fetches issued. -/
structure World where
  files : List (Str × Str)
  printed : List Str
  requests : ℕ
deriving DecidableEq, Repr

/-- `output_path = downloads_dir / f"{name}.swc"` (`api.py` line 131). -/
def pathOf (name : Str) : Str := name ++ ".swc".toList

/-- `output_path.exists()` (`api.py` line 134). -/
def fileExists (w : World) (p : Str) : Bool := w.files.any (fun f => f.1 == p)

/-- Content currently stored at a path. -/
def readFile (w : World) (p : Str) : Option Str :=
  (w.files.find? (fun f => f.1 == p)).map (fun f => f.2)

/-- `print(f"Error downloading {name}: {e}")` (`api.py` line 147). -/
def errLine (name e : Str) : Str :=
  "Error downloading ".toList ++ name ++ ": ".toList ++ e

/-- `download_one` (`api.py` lines 128-147): return immediately when the
target path exists; otherwise resolve and fetch (one network access, with
outcome given by the environment `net`) and write the content at the
target path; any exception is caught here and printed. -/
def download_one (net : Str → Except Str Str) (w : World) (name : Str) : World :=
  if fileExists w (pathOf name) then w
  else
    match net name with
    | .ok content =>
      { w with requests := w.requests + 1, files := (pathOf name, content) :: w.files }
    | .error e =>
      { w with requests := w.requests + 1, printed := errLine name e :: w.printed }

/-- `download_neurons` (`api.py` lines 106-153): one task per neuron and
`await gather`; the tasks touch disjoint paths, and the fold is their
serialisation.  The function body ends without a `return`, so the Python
return value is `None`, modelled as `Unit`. -/
def download_neurons (net : Str → Except Str Str) (names : List Str) (w : World) :
    Unit × World :=
  ((), names.foldl (download_one net) w)

/-- Whether a fallible computation succeeded. -/
def isOkE : Except ε α → Bool
  | .ok _ => true
  | .error _ => false

/-- Modelled from the source line `output_path.write_text(content)`
(`api.py` line 145): the write streams into the target path itself — there
is no temporary name and no rename — so interrupting it after `j`
characters leaves `content.take j` at the target path.  The fetch has
already happened, hence the request count. -/
def download_one_interrupted (w : World) (name : Str) (content : Str) (j : ℕ) : World :=
  { w with requests := w.requests + 1, files := (pathOf name, content.take j) :: w.files }

/-- A concrete fetch environment for witnesses: page 1 fails, every other
page succeeds. -/
def fetchW : ℕ → Except ℕ (List ℕ) :=
  fun p => if p = 1 then .error 503 else .ok (List.range 100)

/-- A concrete download environment: item `b` resolves and fetches fine,
every other item raises. -/
def netW : Str → Except Str Str :=
  fun n => if n = "b".toList then .ok ("data".toList) else .error ("boom".toList)

/-- A concrete download environment where every item succeeds. -/
def netOkW : Str → Except Str Str := fun _ => .ok ("data".toList)

/-- A concrete download environment where every item raises. -/
def netFailW : Str → Except Str Str := fun _ => .error ("boom".toList)

/-- A concrete download environment serving the fixed content `abc`. -/
def netAbc : Str → Except Str Str := fun _ => .ok ("abc".toList)

/-! ## Lemmas about the text pipeline -/

theorem splitWhen_ne_nil (p : Char → Bool) (l : Str) : splitWhen p l ≠ [] := by
  induction l with
  | nil => simp [splitWhen]
  | cons c rest ih =>
    simp only [splitWhen]
    rcases h : splitWhen p rest with _ | ⟨a, t⟩
    · simp
    · simp only [h]
      split <;> simp

theorem splitWhen_append_sep (p : Char → Bool) (s t : Str) (ch : Char)
    (hs : ∀ c ∈ s, p c = false) (hc : p ch = true) :
    splitWhen p (s ++ ch :: t) = s :: splitWhen p t := by
  induction s with
  | nil =>
    simp only [List.nil_append, splitWhen]
    rcases h : splitWhen p t with _ | ⟨a, u⟩
    · exact absurd h (splitWhen_ne_nil p t)
    · simp [hc]
  | cons c s ih =>
    have hps : ∀ d ∈ s, p d = false := fun d hd => hs d (List.mem_cons_of_mem c hd)
    have hpc : p c = false := hs c (List.mem_cons_self c s)
    simp only [List.cons_append, splitWhen, List.append_eq]
    rw [ih hps]
    simp [hpc]

theorem readLines_to_csv (fp : PyFloat → Str) (rows : List SwcRow) :
    ∃ t, readLines (to_csv_text fp rows) = swcHeader :: t := by
  have hjoin : to_csv_text fp rows =
      swcHeader ++ '\n' :: joinLines (rows.map (rowLine fp)) := rfl
  have hs : ∀ c ∈ swcHeader, (fun c => decide (c = '\n')) c = false := by decide
  have hsplit := splitWhen_append_sep (fun c => decide (c = '\n')) swcHeader
    (joinLines (rows.map (rowLine fp))) '\n' hs (by decide)
  rcases h : splitWhen (fun c => decide (c = '\n')) (joinLines (rows.map (rowLine fp)))
    with _ | ⟨a, u⟩
  · exact absurd h (splitWhen_ne_nil _ _)
  · rw [readLines, hjoin, hsplit, h]
    split
    · exact ⟨(a :: u).dropLast, by simp⟩
    · exact ⟨a :: u, rfl⟩

theorem rowsOfLines_header (t : List Str) :
    rowsOfLines (swcHeader :: t) = .error errFields := by
  have h : rowOfTokens (tokensOf swcHeader) = .error errFields := by decide
  simp only [rowsOfLines, h]
  rfl

/-- C9: the claim fails on the code.  The serialised table re-enters the
parser with the `to_csv` header line `n type x y z radius parent` first;
that line contains no `#`, so the comment-skipping loop keeps it as data,
and the integer coercion of the token `n` fails.  Re-parsing therefore
raises, for every record and every rendering of the float columns, instead
of returning an identical row sequence. -/
theorem roundtrip_reparse_fails (fp : PyFloat → Str) (rows : List SwcRow) :
    get_neuron_swc (to_csv_text fp rows) = .error errFields := by
  obtain ⟨t, ht⟩ := readLines_to_csv fp rows
  have hhead : swcHeader.contains '#' = false := by decide
  rw [get_neuron_swc, ht, dataRegion, hhead]
  simp only [Bool.false_eq_true, if_false, rowsOfLines_header]
  rfl

/-- C9 counterexample: a concrete well-formed payload parses, and
re-parsing its serialisation fails rather than reproducing the rows. -/
theorem roundtrip_reparse_fails_cex :
    get_neuron_swc "# h\n1 1 0.0 0.0 0.0 1.0 -1\n".toList =
      .ok [⟨1, 1, ⟨0, 1⟩, ⟨0, 1⟩, ⟨0, 1⟩, ⟨10, 1⟩, -1⟩] ∧
    get_neuron_swc (to_csv_text floatTok [⟨1, 1, ⟨0, 1⟩, ⟨0, 1⟩, ⟨0, 1⟩, ⟨10, 1⟩, -1⟩]) =
      .error errFields := by decide

/-- C1 counterexample: a payload whose data rows contain two rows with
`parent = -1` parses successfully — `validate_swc_data` never checks for a
duplicate root, so parsing does not fail with a validation error as the
claim states. -/
theorem duplicate_root_accepted_cex :
    get_neuron_swc "1 1 0.0 0.0 0.0 1.0 -1\n2 3 0.5 0.5 0.5 1.0 -1\n".toList =
      .ok [⟨1, 1, ⟨0, 1⟩, ⟨0, 1⟩, ⟨0, 1⟩, ⟨10, 1⟩, -1⟩,
           ⟨2, 3, ⟨5, 1⟩, ⟨5, 1⟩, ⟨5, 1⟩, ⟨10, 1⟩, -1⟩] := by decide

/-- C1 amended: validation fails — with the `ValueError` text
`"SWC data does not contain a root node."` — exactly when zero rows have
`parent == -1`; a table with one root or with two or more roots is
accepted. -/
theorem validate_root_check (rows : List SwcRow) :
    validate_swc_data rows = .error errNoRoot ↔ ∀ r ∈ rows, r.parent ≠ -1 := by
  rcases h : rows.all (fun r => r.parent != -1) with _ | _
  · have hnot : ¬∀ r ∈ rows, r.parent ≠ -1 := by
      intro hall
      have : rows.all (fun r => r.parent != -1) = true := by
        simpa [List.all_eq_true, bne_iff_ne] using hall
      simp [this] at h
    simp only [validate_swc_data, h, Bool.false_eq_true, if_false]
    constructor
    · intro he
      exact absurd he (by split <;> simp)
    · intro hall
      exact absurd hall hnot
  · have hall : ∀ r ∈ rows, r.parent ≠ -1 := by
      simpa [List.all_eq_true, bne_iff_ne] using h
    simp only [validate_swc_data, h, if_true]
    simpa using hall

/-- C8: for a table with a root row, when no row has `type == 1` the row
at structural index 0 has its type reassigned to 1 (`setHeadType1`) and
the run is a success carrying the printed-notice flag, not an error; when
some row already has `type == 1` the rows are returned unmodified. -/
theorem soma_normalization (rows : List SwcRow)
    (hroot : ∃ r ∈ rows, r.parent = -1) :
    ((∀ r ∈ rows, r.type ≠ 1) →
        validate_swc_data rows = .ok (setHeadType1 rows, true)) ∧
    ((∃ r ∈ rows, r.type = 1) →
        validate_swc_data rows = .ok (rows, false)) := by
  have hroot' : rows.all (fun r => r.parent != -1) = false := by
    rcases hroot with ⟨r, hr, hpar⟩
    simp only [List.all_eq_false]
    exact ⟨r, hr, by simp [hpar]⟩
  constructor
  · intro hno
    have h1 : rows.all (fun r => r.type != 1) = true := by
      simpa [List.all_eq_true, bne_iff_ne] using hno
    simp [validate_swc_data, hroot', h1]
  · intro hyes
    have h1 : rows.all (fun r => r.type != 1) = false := by
      rcases hyes with ⟨r, hr, hty⟩
      simp only [List.all_eq_false]
      exact ⟨r, hr, by simp [hty]⟩
    simp [validate_swc_data, hroot', h1]

/-- Witness for C8 at concrete tables: a one-row table with no soma gets
its head row's type set to 1 with the notice flag, and a table that
already has a soma row is returned unchanged. -/
theorem soma_normalization_witness :
    validate_swc_data [⟨1, 3, ⟨0, 1⟩, ⟨0, 1⟩, ⟨0, 1⟩, ⟨10, 1⟩, -1⟩] =
      .ok ([⟨1, 1, ⟨0, 1⟩, ⟨0, 1⟩, ⟨0, 1⟩, ⟨10, 1⟩, -1⟩], true) ∧
    validate_swc_data [⟨1, 1, ⟨0, 1⟩, ⟨0, 1⟩, ⟨0, 1⟩, ⟨10, 1⟩, -1⟩] =
      .ok ([⟨1, 1, ⟨0, 1⟩, ⟨0, 1⟩, ⟨0, 1⟩, ⟨10, 1⟩, -1⟩], false) :=
  ⟨(soma_normalization _ (by decide)).1 (by decide),
   (soma_normalization _ (by decide)).2 (by decide)⟩

/-- C10: any status outside `{200, 400, 404, 405, 500}` makes
`_check_response_validity` raise the `KeyError` of the `bad_status` lookup
rather than the structured `ValueError`, and both request helpers inherit
this unguarded branch. -/
theorem unknown_status_keyerror (s : ℕ) (getBody postBody : Str)
    (h : s ∉ ([200, 400, 404, 405, 500] : List ℕ)) :
    _check_response_validity s = .error (.keyErr s) ∧
    request_url_get s getBody = .error (.keyErr s) ∧
    request_url_post s postBody = .error (.keyErr s) := by
  simp only [List.mem_cons, List.not_mem_nil, or_false, not_or] at h
  obtain ⟨h200, h400, h404, h405, h500⟩ := h
  have e400 : ((400 : ℕ) == s) = false := beq_eq_false_iff_ne.mpr (Ne.symm h400)
  have e404 : ((404 : ℕ) == s) = false := beq_eq_false_iff_ne.mpr (Ne.symm h404)
  have e405 : ((405 : ℕ) == s) = false := beq_eq_false_iff_ne.mpr (Ne.symm h405)
  have e500 : ((500 : ℕ) == s) = false := beq_eq_false_iff_ne.mpr (Ne.symm h500)
  have hfind : lookupStatus s = none := by
    simp [lookupStatus, bad_status, List.find?_cons, e400, e404, e405, e500]
  have hchk : _check_response_validity s = .error (.keyErr s) := by
    rw [_check_response_validity, if_neg h200, hfind]
  refine ⟨hchk, ?_, ?_⟩ <;> simp [request_url_get, request_url_post, hchk] <;> rfl

/-- Witness for C10 at status 503 (outside the table). -/
theorem unknown_status_keyerror_witness :
    _check_response_validity 503 = .error (.keyErr 503) ∧
    request_url_get 503 [] = .error (.keyErr 503) ∧
    request_url_post 503 [] = .error (.keyErr 503) :=
  unknown_status_keyerror 503 [] [] (by decide)

/-! ## Lemmas about fail-fast gather -/

theorem gatherExcept_error {ε α : Type} (tasks : List (Except ε (List α)))
    (h : ∃ t ∈ tasks, isOkE t = false) : ∃ e, gatherExcept tasks = .error e := by
  induction tasks with
  | nil => simp at h
  | cons a rest ih =>
    cases a with
    | error e => exact ⟨e, rfl⟩
    | ok r =>
      rcases h with ⟨t, ht, hbad⟩
      rcases List.mem_cons.mp ht with rfl | hrest
      · simp [isOkE] at hbad
      · obtain ⟨e, he⟩ := ih ⟨t, hrest, hbad⟩
        refine ⟨e, ?_⟩
        simp only [gatherExcept, he]
        rfl

/-- C7: if any single page fetch fails, the whole search aborts with an
error surfaced to the caller (the `gather` re-raises it through
`search_neurons`); in particular no partial `.ok` collection is ever
returned. -/
theorem search_aborts_on_page_failure {ε α : Type} (total : ℕ)
    (fetch : ℕ → Except ε (List α))
    (h : ∃ p ∈ List.range (numPages total), isOkE (fetch p) = false) :
    (∃ e, search_neurons_exc total fetch = .error e) ∧
    ∀ l, search_neurons_exc total fetch ≠ .ok l := by
  have htask : ∃ t ∈ (List.range (numPages total)).map fetch, isOkE t = false := by
    rcases h with ⟨p, hp, hbad⟩
    exact ⟨fetch p, List.mem_map.mpr ⟨p, hp, rfl⟩, hbad⟩
  obtain ⟨e, he⟩ := gatherExcept_error _ htask
  have hres : search_neurons_exc total fetch = .error e := by
    simp only [search_neurons_exc, he]
    rfl
  exact ⟨⟨e, hres⟩, fun l hl => by rw [hres] at hl; cases hl⟩

/-- Witness for C7: 150 total elements give two pages; page 1's fetch
fails, and the search run returns no `.ok` result. -/
theorem search_aborts_on_page_failure_witness :
    isOkE (search_neurons_exc 150 fetchW) = false := by
  obtain ⟨⟨e, he⟩, -⟩ :=
    search_aborts_on_page_failure 150 fetchW ⟨1, by decide, by decide⟩
  rw [he]
  rfl

/-! ## Lemmas about gather slot assembly and pagination -/

theorem storeResults_not_mem {α : Type} (f : ℕ → List α) (order : List ℕ)
    (acc : ℕ → Option (List α)) (i : ℕ) (h : i ∉ order) :
    storeResults f order acc i = acc i := by
  induction order generalizing acc with
  | nil => rfl
  | cons j rest ih =>
    have hij : i ≠ j := fun e => h (e ▸ List.mem_cons_self j rest)
    have hir : i ∉ rest := fun hr => h (List.mem_cons_of_mem j hr)
    simp only [storeResults, ih _ hir, hij, if_false]

theorem storeResults_mem {α : Type} (f : ℕ → List α) (order : List ℕ)
    (acc : ℕ → Option (List α)) (i : ℕ) (h : i ∈ order) :
    storeResults f order acc i = some (f i) := by
  induction order generalizing acc with
  | nil => simp at h
  | cons j rest ih =>
    by_cases hm : i ∈ rest
    · exact ih _ hm
    · have hij : i = j := by
        rcases List.mem_cons.mp h with e | e
        · exact e
        · exact absurd e hm
      subst hij
      rw [storeResults, storeResults_not_mem f rest _ i hm]
      simp

theorem collectSlots_map_some {α : Type} (l : List (List α)) :
    collectSlots (l.map some) = some l := by
  induction l with
  | nil => rfl
  | cons a rest ih => simp [collectSlots, ih]

theorem chunks_flatten {α : Type} (s : ℕ) (hs : 0 < s) :
    ∀ (N : ℕ) (l : List α), l.length ≤ N →
      ((List.range ((l.length + s - 1) / s)).map
        (fun p => (l.drop (p * s)).take s)).flatten = l := by
  intro N
  induction N with
  | zero =>
    intro l hl
    have : l = [] := List.eq_nil_of_length_eq_zero (Nat.le_zero.mp hl)
    subst this
    have h0 : (0 + s - 1) / s = 0 := Nat.div_eq_of_lt (by omega)
    simp [h0]
  | succ N ih =>
    intro l hl
    rcases Nat.eq_zero_or_pos l.length with hz | hpos
    · have : l = [] := List.eq_nil_of_length_eq_zero hz
      subst this
      have h0 : (0 + s - 1) / s = 0 := Nat.div_eq_of_lt (by omega)
      simp [h0]
    · have hpages : (l.length + s - 1) / s = (l.length - 1) / s + 1 := by
        have harg : l.length + s - 1 = (l.length - 1) + s := by omega
        rw [harg, Nat.add_div_right _ hs]
      have hdroplen : (l.drop s).length = l.length - s := List.length_drop ..
      have hpages' : ((l.drop s).length + s - 1) / s = (l.length - 1) / s := by
        rw [hdroplen]
        rcases le_or_lt s l.length with hle | hlt
        · congr 1
          omega
        · have h1 : l.length - s + s - 1 < s := by omega
          have h2 : l.length - 1 < s := by omega
          rw [Nat.div_eq_of_lt h1, Nat.div_eq_of_lt h2]
      have ihtail := ih (l.drop s) (by rw [hdroplen]; omega)
      rw [hpages'] at ihtail
      rw [hpages, List.range_succ_eq_map]
      simp only [List.map_cons, List.map_map, List.flatten_cons, Nat.zero_mul,
        List.drop_zero]
      have hcomp : ((fun p => (l.drop (p * s)).take s) ∘ (fun i => i + 1)) =
          (fun p => ((l.drop s).drop (p * s)).take s) := by
        funext p
        simp only [Function.comp]
        rw [List.drop_drop]
        congr 2
        ring
      rw [hcomp, ihtail, List.take_append_drop]

/-- C3: for every remote collection and every completion order of the page
tasks (a permutation of the page indices), `search_neurons` returns
exactly the whole collection — `totalElements` items — concatenated in
ascending page-index order. -/
theorem search_neurons_ordered {α : Type} (items : List α) (completion : List ℕ)
    (h : completion.Perm (List.range (numPages items.length))) :
    search_neurons items completion = some items := by
  have hcov : ∀ j ∈ List.range (numPages items.length), j ∈ completion :=
    fun j hj => h.mem_iff.mpr hj
  have hmap : (List.range (numPages items.length)).map
      (storeResults (fetch_page items 100) completion (fun _ => none)) =
      ((List.range (numPages items.length)).map (fetch_page items 100)).map some := by
    rw [List.map_map]
    exact List.map_congr_left
      (fun j hj => storeResults_mem (fetch_page items 100) completion _ j (hcov j hj))
  rw [search_neurons, hmap, collectSlots_map_some]
  have hflat := chunks_flatten 100 (by norm_num) items.length items le_rfl
  show some (((List.range (numPages items.length)).map (fetch_page items 100)).flatten) =
    some items
  rw [show numPages items.length = (items.length + 100 - 1) / 100 from rfl]
  exact congrArg some hflat

/-- Witness for C3: 150 items give two pages; with the pages completing
out of order (page 1 first), the result is still the whole collection in
ascending page order. -/
theorem search_neurons_ordered_witness :
    search_neurons (List.range 150) [1, 0] = some (List.range 150) :=
  search_neurons_ordered (List.range 150) [1, 0]
    (by
      have hlen : (List.range 150).length = 150 := List.length_range ..
      have h2 : List.range (numPages (List.range 150).length) = [0, 1] := by
        rw [hlen]
        decide
      rw [h2]
      exact List.Perm.swap 0 1 [])

/-! ## Lemmas about the semaphore model -/

theorem countP_set_up {α : Type} (p : α → Bool) :
    ∀ (l : List α) (i : ℕ) (a b : α), l[i]? = some a → p a = false → p b = true →
      (l.set i b).countP p = l.countP p + 1 := by
  intro l
  induction l with
  | nil => intro i a b hget _ _; simp at hget
  | cons x xs ih =>
    intro i a b hget hpa hpb
    cases i with
    | zero =>
      simp only [List.getElem?_cons_zero, Option.some.injEq] at hget
      subst hget
      simp [List.set, List.countP_cons, hpa, hpb]
    | succ i =>
      simp only [List.getElem?_cons_succ] at hget
      simp only [List.set, List.countP_cons, ih i a b hget hpa hpb]
      omega

theorem countP_set_down {α : Type} (p : α → Bool) :
    ∀ (l : List α) (i : ℕ) (a b : α), l[i]? = some a → p a = true → p b = false →
      (l.set i b).countP p + 1 = l.countP p := by
  intro l
  induction l with
  | nil => intro i a b hget _ _; simp at hget
  | cons x xs ih =>
    intro i a b hget hpa hpb
    cases i with
    | zero =>
      simp only [List.getElem?_cons_zero, Option.some.injEq] at hget
      subst hget
      simp [List.set, List.countP_cons, hpa, hpb]
    | succ i =>
      simp only [List.getElem?_cons_succ] at hget
      simp only [List.set, List.countP_cons, ← ih i a b hget hpa hpb]
      omega

theorem inFlight_replicate_waiting (n : ℕ) :
    inFlight (List.replicate n TaskPhase.waiting) = 0 := by
  induction n with
  | zero => rfl
  | succ n ih => simp [inFlight, List.replicate, List.countP_cons] at ih ⊢

theorem semStep_inFlight {k : ℕ} {s u : List TaskPhase} (hstep : SemStep k s u)
    (hs : inFlight s ≤ k) : inFlight u ≤ k := by
  cases hstep with
  | acquire i hget hcap =>
    have heq : inFlight (s.set i TaskPhase.running) = inFlight s + 1 :=
      countP_set_up (fun x => x == TaskPhase.running) s i
        TaskPhase.waiting TaskPhase.running hget rfl rfl
    rw [heq]
    omega
  | finishOk i hget =>
    have heq : inFlight (s.set i TaskPhase.doneOk) + 1 = inFlight s :=
      countP_set_down (fun x => x == TaskPhase.running) s i
        TaskPhase.running TaskPhase.doneOk hget rfl rfl
    omega
  | finishFail i hget =>
    have heq : inFlight (s.set i TaskPhase.doneFail) + 1 = inFlight s :=
      countP_set_down (fun x => x == TaskPhase.running) s i
        TaskPhase.running TaskPhase.doneFail hget rfl rfl
    omega

/-- C6: semaphore admission control.  In every state reachable by
interleaving the task steps of `fetch_with_sem` / `download_one` from an
all-waiting start, at most `k` tasks hold a permit at once; a task enters
its body only after acquiring (`SemStep.acquire` requires
`inFlight s < k`), and both normal completion and failure release the
permit (`SemStep.finishOk` / `SemStep.finishFail`). -/
theorem semaphore_bounds_in_flight (k n : ℕ) (s : List TaskPhase)
    (h : SemReaches k (List.replicate n TaskPhase.waiting) s) :
    inFlight s ≤ k := by
  induction h with
  | refl => rw [inFlight_replicate_waiting]; omega
  | step hreach hstep ih => exact semStep_inFlight hstep ih

/-- Witness for C6: with capacity 1 and two tasks, after task 0 acquires
the permit the reachable state has one task in flight, within the bound. -/
theorem semaphore_bounds_in_flight_witness :
    inFlight [TaskPhase.running, TaskPhase.waiting] ≤ 1 := by
  have hstep : SemStep 1 (List.replicate 2 TaskPhase.waiting)
      [TaskPhase.running, TaskPhase.waiting] :=
    SemStep.acquire (List.replicate 2 TaskPhase.waiting) 0 (by decide) (by decide)
  exact semaphore_bounds_in_flight 1 2 _ (SemReaches.step (SemReaches.refl _) hstep)

/-! ## Lemmas about the bulk-download world -/

theorem pathOf_inj {a b : Str} (h : pathOf a = pathOf b) : a = b :=
  List.append_cancel_right h

theorem mem_files_download_one (net : Str → Except Str Str) (w : World) (n : Str)
    (pr : Str × Str) (h : pr ∈ w.files) : pr ∈ (download_one net w n).files := by
  unfold download_one
  split
  · exact h
  · cases hnet : net n with
    | ok c => exact List.mem_cons_of_mem _ h
    | error e => exact h

theorem mem_files_fold (net : Str → Except Str Str) (names : List Str) :
    ∀ (w : World) (pr : Str × Str), pr ∈ w.files →
      pr ∈ (names.foldl (download_one net) w).files := by
  induction names with
  | nil => intro w pr h; exact h
  | cons a rest ih =>
    intro w pr h
    exact ih _ pr (mem_files_download_one net w a pr h)

theorem fileExists_download_one (net : Str → Except Str Str) (w : World) (n : Str)
    (p : Str) (h : fileExists w p = true) : fileExists (download_one net w n) p = true := by
  unfold download_one
  split
  · exact h
  · simp only [fileExists] at h
    cases hnet : net n with
    | ok c => simp [fileExists, h]
    | error e => simp [fileExists, h]

theorem fileExists_fold (net : Str → Except Str Str) (names : List Str) :
    ∀ (w : World) (p : Str), fileExists w p = true →
      fileExists (names.foldl (download_one net) w) p = true := by
  induction names with
  | nil => intro w p h; exact h
  | cons a rest ih =>
    intro w p h
    exact ih _ p (fileExists_download_one net w a p h)

theorem fileExists_download_one_other (net : Str → Except Str Str) (w : World)
    (n m : Str) (hne : n ≠ m) (h : fileExists w (pathOf m) = false) :
    fileExists (download_one net w n) (pathOf m) = false := by
  unfold download_one
  split
  · exact h
  · have hbeq : (pathOf n == pathOf m) = false :=
      beq_eq_false_iff_ne.mpr (fun e => hne (pathOf_inj e))
    simp only [fileExists] at h
    cases hnet : net n with
    | ok c => simp [fileExists, hbeq, h]
    | error e => simp [fileExists, h]

theorem fold_writes (net : Str → Except Str Str) (names : List Str) :
    ∀ (w : World) (m c : Str), m ∈ names → names.Nodup →
      fileExists w (pathOf m) = false → net m = .ok c →
      (pathOf m, c) ∈ (names.foldl (download_one net) w).files := by
  induction names with
  | nil => intro w m c hm _ _ _; cases hm
  | cons a rest ih =>
    intro w m c hm hnodup hnew hnet
    rcases List.mem_cons.mp hm with rfl | hr
    · have hstep : (pathOf m, c) ∈ (download_one net w m).files := by
        simp [download_one, hnew, hnet]
      exact mem_files_fold net rest _ _ hstep
    · have hna : a ∉ rest := (List.nodup_cons.mp hnodup).1
      have hne : a ≠ m := fun e => hna (e ▸ hr)
      exact ih _ m c hr (List.nodup_cons.mp hnodup).2
        (fileExists_download_one_other net w a m hne hnew) hnet

theorem fold_creates (net : Str → Except Str Str) (names : List Str) :
    ∀ (w : World) (m : Str), m ∈ names → isOkE (net m) = true →
      fileExists (names.foldl (download_one net) w) (pathOf m) = true := by
  induction names with
  | nil => intro w m hm _; cases hm
  | cons a rest ih =>
    intro w m hm hok
    rcases List.mem_cons.mp hm with rfl | hr
    · have hstep : fileExists (download_one net w m) (pathOf m) = true := by
        by_cases hex : fileExists w (pathOf m) = true
        · simp [download_one, hex]
        · have hex' : fileExists w (pathOf m) = false := by
            simpa using hex
          cases hnet : net m with
          | error e => rw [hnet] at hok; simp [isOkE] at hok
          | ok c =>
            have hex2 : (w.files.any fun f => f.1 == pathOf m) = false := hex'
            simp [download_one, hnet, fileExists, hex2]
      exact fileExists_fold net rest _ _ hstep
    · exact ih _ m hr hok

theorem fold_noop (net : Str → Except Str Str) (names : List Str) (w : World)
    (hall : ∀ m ∈ names, fileExists w (pathOf m) = true) :
    names.foldl (download_one net) w = w := by
  induction names with
  | nil => rfl
  | cons a rest ih =>
    have ha : download_one net w a = w := by
      simp [download_one, hall a (List.mem_cons_self a rest)]
    rw [List.foldl_cons, ha]
    exact ih (fun m hm => hall m (List.mem_cons_of_mem a hm))

/-- C2 counterexample: `download_neurons` returns Python `None` (here
`Unit`), so the returned value of a run with one failed item equals the
returned value of a run with no failed item — it cannot tally written,
skipped or failed counts, and no `DownloadReport` exists.  The only trace
of the failure is a printed line. -/
theorem no_download_report_cex :
    (download_neurons netFailW ["a".toList] ⟨[], [], 0⟩).1 =
      (download_neurons netOkW ["a".toList] ⟨[], [], 0⟩).1 ∧
    (download_neurons netFailW ["a".toList] ⟨[], [], 0⟩).2.printed.length = 1 ∧
    (download_neurons netOkW ["a".toList] ⟨[], [], 0⟩).2.printed.length = 0 := by
  decide

/-- C2 amended: there is no returned report — the run's value is `()` —
but failure isolation holds: whatever errors the environment raises for
other items, every item whose own fetch succeeds (and whose target is
fresh, with distinct item names) ends up written in the final state. -/
theorem download_failure_isolated (net : Str → Except Str Str) (names : List Str)
    (w : World) (m c : Str) (hmem : m ∈ names) (hnodup : names.Nodup)
    (hnew : fileExists w (pathOf m) = false) (hnet : net m = .ok c) :
    (download_neurons net names w).1 = () ∧
    (pathOf m, c) ∈ (download_neurons net names w).2.files :=
  ⟨rfl, fold_writes net names w m c hmem hnodup hnew hnet⟩

/-- Witness for C2's amended claim: item `a` raises, yet sibling `b` is
still downloaded and written. -/
theorem download_failure_isolated_witness :
    (pathOf ("b".toList), "data".toList) ∈
      (download_neurons netW ["a".toList, "b".toList] ⟨[], [], 0⟩).2.files :=
  (download_failure_isolated netW ["a".toList, "b".toList] ⟨[], [], 0⟩
    ("b".toList) ("data".toList) (by decide) (by decide) (by decide) (by decide)).2

/-- C5 counterexample: an item whose target path already exists is not
"marked skipped-existing" anywhere — the run on it is observationally
identical (same return value, files, printed lines and request count) to a
run that never contained the item, so no skip marking or report exists. -/
theorem skip_unmarked_cex :
    download_neurons netOkW ["a".toList] ⟨[(pathOf ("a".toList), "x".toList)], [], 0⟩ =
      download_neurons netOkW [] ⟨[(pathOf ("a".toList), "x".toList)], [], 0⟩ := by
  decide

/-- C5 amended: an item whose target path exists is skipped with no
network access and no state change at all (first conjunct), and after a
fully successful run a second identical run is a complete no-op: the world
— in particular its request counter — is unchanged, i.e. zero network
requests are performed. -/
theorem second_run_skips_all (net : Str → Except Str Str) (names : List Str)
    (w : World) (hok : ∀ m ∈ names, isOkE (net m) = true) :
    (∀ (m : Str) (w' : World), fileExists w' (pathOf m) = true →
        download_one net w' m = w') ∧
    download_neurons net names ((download_neurons net names w).2) =
      ((), (download_neurons net names w).2) := by
  constructor
  · intro m w' h
    simp [download_one, h]
  · have hall : ∀ m ∈ names,
        fileExists ((download_neurons net names w).2) (pathOf m) = true :=
      fun m hm => fold_creates net names w m hm (hok m hm)
    exact congrArg (fun x => ((), x)) (fold_noop net names _ hall)

/-- Witness for C5's amended claim at a concrete item set. -/
theorem second_run_skips_all_witness :
    download_one netOkW ⟨[(pathOf ("a".toList), "x".toList)], [], 0⟩ ("a".toList) =
      ⟨[(pathOf ("a".toList), "x".toList)], [], 0⟩ ∧
    download_neurons netOkW ["a".toList]
        ((download_neurons netOkW ["a".toList] ⟨[], [], 0⟩).2) =
      ((), (download_neurons netOkW ["a".toList] ⟨[], [], 0⟩).2) :=
  ⟨(second_run_skips_all netOkW ["a".toList] ⟨[], [], 0⟩ (by decide)).1
      ("a".toList) ⟨[(pathOf ("a".toList), "x".toList)], [], 0⟩ (by decide),
   (second_run_skips_all netOkW ["a".toList] ⟨[], [], 0⟩ (by decide)).2⟩

/-- C4 counterexample: interrupting the direct `write_text` to the target
path after one character leaves the partial content `a` at the target
path, and a later `download_one` for the same item sees the path as
existing and skips it — exactly what the claim says can never happen. -/
theorem nonatomic_write_cex :
    readFile (download_one_interrupted ⟨[], [], 0⟩ ("a".toList) ("abc".toList) 1)
        (pathOf ("a".toList)) = some ("a".toList) ∧
    ("a".toList : Str) ≠ "abc".toList ∧
    download_one netAbc
        (download_one_interrupted ⟨[], [], 0⟩ ("a".toList) ("abc".toList) 1)
        ("a".toList) =
      download_one_interrupted ⟨[], [], 0⟩ ("a".toList) ("abc".toList) 1 := by
  decide

/-- C4 amended: the fetched content is written directly to the target path
with no temporary name or rename, so an interruption mid-write leaves a
proper prefix of the content at the target path, and every later
invocation treats the item as already downloaded and skips it. -/
theorem nonatomic_write (net : Str → Except Str Str) (w : World)
    (name content : Str) (j : ℕ) (hj : j < content.length) :
    fileExists (download_one_interrupted w name content j) (pathOf name) = true ∧
    readFile (download_one_interrupted w name content j) (pathOf name) =
      some (content.take j) ∧
    content.take j ≠ content ∧
    download_one net (download_one_interrupted w name content j) name =
      download_one_interrupted w name content j := by
  have hex : fileExists (download_one_interrupted w name content j) (pathOf name) = true := by
    simp [fileExists, download_one_interrupted]
  refine ⟨hex, ?_, ?_, ?_⟩
  · simp [readFile, download_one_interrupted, List.find?]
  · intro heq
    have hlen := congrArg List.length heq
    simp only [List.length_take] at hlen
    omega
  · simp [download_one, hex]

/-- Witness for C4's amended claim: content `abcd` interrupted after two
characters. -/
theorem nonatomic_write_witness :
    fileExists (download_one_interrupted ⟨[], [], 0⟩ ("n".toList) ("abcd".toList) 2)
        (pathOf ("n".toList)) = true ∧
    readFile (download_one_interrupted ⟨[], [], 0⟩ ("n".toList) ("abcd".toList) 2)
        (pathOf ("n".toList)) = some (("abcd".toList : Str).take 2) ∧
    ("abcd".toList : Str).take 2 ≠ "abcd".toList ∧
    download_one netAbc
        (download_one_interrupted ⟨[], [], 0⟩ ("n".toList) ("abcd".toList) 2)
        ("n".toList) =
      download_one_interrupted ⟨[], [], 0⟩ ("n".toList) ("abcd".toList) 2 :=
  nonatomic_write netAbc ⟨[], [], 0⟩ ("n".toList) ("abcd".toList) 2 (by decide)

end NeuromorphoPy
